import Mathlib

/-!
Verification of the coverage-report tool (scripts/analyze_coverage.py).

The script reads a Go coverage file line by line, folds each line into a
per-package aggregate (total statements / covered statements), and renders
a report.  We embed the line-processing loop and the report computations,
working on lists of characters so that everything is structurally
recursive and evaluable:

  * pyFields models line.strip().split(): whitespace tokenisation that
    drops empty tokens;
  * pyInt models the int(...) builtin on such tokens (fallible, hence
    Option);
  * pkgMatch models re.match of the anchored pattern consisting of a
    literal repository-root path followed by one or more non-slash
    characters, parameterised by the literal root so that statements can
    be instantiated both with the root hard-coded in the script and with
    the shorter root used by the specification examples;
  * Stats models the defaultdict pkg_stats: an insertion-ordered list of
    keys (Python dicts preserve insertion order) together with a
    total/covered pair for every key, (0, 0) standing for an absent entry;
  * a line either is skipped, aborts the run (int(...) raising ValueError
    is an uncaught fatal error, modelled by Except.error), or contributes
    one record; processLines folds a list of lines from the empty state;
  * the report side: rows carrying the coverage percentage as an exact
    rational, the status string and the totals, sorted ascending with a
    stable insertion sort (Python list.sort is stable, and any two stable
    sorts with the same key agree), the overall percentage, and the
    "needing improvement" table.
-/

/-- Prefix test on character lists (str.startswith). -/
def leadsWith : List Char → List Char → Bool
  | [], _ => true
  | _ :: _, [] => false
  | a :: as, b :: bs => a = b && leadsWith as bs

/-- Whitespace tokenisation of a character list, accumulating the current
token in reverse: models the argument-less str.split, which drops empty
tokens and ignores leading and trailing whitespace, applied after strip. -/
def wordsAux : List Char → List Char → List (List Char)
  | [], cur => if cur = [] then [] else [cur.reverse]
  | c :: cs, cur =>
    if c.isWhitespace then
      if cur = [] then wordsAux cs [] else cur.reverse :: wordsAux cs []
    else wordsAux cs (c :: cur)

/-- Tokens of a line: parts = line.strip().split(). -/
def pyFields (line : String) : List (List Char) := wordsAux line.data []

/-- The file path of a line: the first token truncated at the first colon,
parts[0].split(":")[0]. -/
def filePathOf (line : String) : List Char :=
  ((pyFields line).getD 0 []).takeWhile (fun c => c ≠ ':')

/-- Strip of surrounding whitespace. -/
def trimChars (cs : List Char) : List Char :=
  ((cs.dropWhile Char.isWhitespace).reverse.dropWhile Char.isWhitespace).reverse

/-- Value of a nonempty all-digit character list, none otherwise. -/
def digitsVal (cs : List Char) : Option Nat :=
  if cs = [] then none
  else if cs.all (fun c => c.isDigit) then
    some (cs.foldl (fun n c => 10 * n + (c.toNat - 48)) 0)
  else none

/-- The int(...) builtin on a token: optional surrounding whitespace,
optional sign, then decimal digits; anything else raises ValueError,
modelled as none. -/
def pyInt (cs : List Char) : Option Int :=
  match trimChars cs with
  | '-' :: rest => (digitsVal rest).map (fun n => -(n : Int))
  | '+' :: rest => (digitsVal rest).map (fun n => (n : Int))
  | ds => (digitsVal ds).map (fun n => (n : Int))

/-- re.match of the anchored pattern: the literal root pre followed by one
or more non-slash characters, the group being the root plus that maximal
segment; none when the path does not start with the root or the segment
is empty. -/
def pkgMatch (pre : String) (fp : List Char) : Option String :=
  if leadsWith pre.data fp then
    let seg := (fp.drop pre.data.length).takeWhile (fun c => c ≠ '/')
    if seg = [] then none else some (String.mk (pre.data ++ seg))
  else none

/-- The repository-root literal hard-coded in the script's regex. -/
def repoPkgRoot : String := "github.com/junbin-yang/go-kitbox/pkg/"

/-- The state of the aggregation: the dict's keys in insertion order, and
for every string the (total, covered) pair, (0, 0) for absent keys. -/
structure Stats where
  keys : List String
  agg : String → Int × Int

def emptyStats : Stats := { keys := [], agg := fun _ => (0, 0) }

/-- What the loop body does with one line: skip it, abort the run, or fold
one record (package key, statement count, execution count). -/
inductive LineAction where
  | skip : LineAction
  | fatal : LineAction
  | record : String → Int → Int → LineAction
deriving DecidableEq

/-- The loop body's decision for one line, mirroring the script: a mode
line is skipped; a line with fewer than 3 tokens is skipped; int(parts[2])
is evaluated next, aborting when it is not an integer; then the package
pattern is matched against the path, a non-matching line being skipped;
finally int(parts[1]) is evaluated, aborting when it is not an integer. -/
def classify (pre : String) (line : String) : LineAction :=
  if leadsWith ("mode:").data line.data then .skip
  else if (pyFields line).length < 3 then .skip
  else
    match pyInt ((pyFields line).getD 2 []) with
    | none => .fatal
    | some covered =>
      match pkgMatch pre (filePathOf line) with
      | none => .skip
      | some pkg =>
        match pyInt ((pyFields line).getD 1 []) with
        | none => .fatal
        | some statements => .record pkg statements covered

/-- Key list after a dict access that creates the key if absent. -/
def dictInsertKey (keys : List String) (pkg : String) : List String :=
  if pkg ∈ keys then keys else keys ++ [pkg]

/-- Folding one record: total += statements always, covered += statements
exactly when the execution count is positive. -/
def applyRecord (st : Stats) (pkg : String) (statements covered : Int) : Stats :=
  { keys := dictInsertKey st.keys pkg
    agg := fun k =>
      if k = pkg then
        ((st.agg k).1 + statements,
         (st.agg k).2 + (if 0 < covered then statements else 0))
      else st.agg k }

/-- Effect of one line on the state. -/
def stepLine (pre : String) (st : Stats) (line : String) : Except Unit Stats :=
  match classify pre line with
  | .skip => .ok st
  | .fatal => .error ()
  | .record pkg statements covered => .ok (applyRecord st pkg statements covered)

/-- Effect of one line threaded through the fallible run: a raised error
ends the run, every later line is dead. -/
def stepE (pre : String) (acc : Except Unit Stats) (line : String) : Except Unit Stats :=
  match acc with
  | .error e => .error e
  | .ok st => stepLine pre st line

/-- The whole parsing loop over the lines of the file. -/
def processLines (pre : String) (lines : List String) : Except Unit Stats :=
  lines.foldl (stepE pre) (Except.ok emptyStats)

/-- Coverage percentage: (covered / total) * 100 as an exact rational. -/
def pctOf (covered total : Int) : ℚ := ((covered : ℚ) / (total : ℚ)) * 100

/-- Status label of a row. -/
def statusOf (coverage : ℚ) : String :=
  if 75 ≤ coverage then ("Good") else ("Needs Work")

/-- One line of the report table. -/
structure Row where
  pkg : String
  coverage : ℚ
  status : String
  total : Int
  covered : Int
deriving DecidableEq

/-- Insert into a list keeping elements that compare le first, so that a
left fold over the original order is a stable sort. -/
def insortBy {α : Type} (le : α → α → Prop) [DecidableRel le] (x : α) :
    List α → List α
  | [] => [x]
  | y :: ys => if le y x then y :: insortBy le x ys else x :: y :: ys

/-- Stable insertion sort, modelling Python's stable list.sort / sorted. -/
def sortBy {α : Type} (le : α → α → Prop) [DecidableRel le] (l : List α) :
    List α :=
  l.foldl (fun acc x => insortBy le x acc) []

/-- Lexicographic comparison of character lists by code point, the order
Python uses when sorting strings. -/
def lexLe : List Char → List Char → Bool
  | [], _ => true
  | _ :: _, [] => false
  | a :: as, b :: bs => if a = b then lexLe as bs else decide (a.toNat < b.toNat)

def strLe (a b : String) : Prop := lexLe a.data b.data = true

instance : DecidableRel strLe :=
  fun a b => inferInstanceAs (Decidable (lexLe a.data b.data = true))

def rowLe (a b : Row) : Prop := a.coverage ≤ b.coverage

instance : DecidableRel rowLe :=
  fun a b => inferInstanceAs (Decidable (a.coverage ≤ b.coverage))

/-- sorted(pkg_stats.items()): the dict items in ascending key order. -/
def sortedKeys (st : Stats) : List String := sortBy strLe st.keys

/-- The rows built in key order, keeping only aggregates with total > 0. -/
def resultRows (st : Stats) : List Row :=
  (sortedKeys st).filterMap (fun k =>
    if 0 < (st.agg k).1 then
      some { pkg := k
             coverage := pctOf (st.agg k).2 (st.agg k).1
             status := statusOf (pctOf (st.agg k).2 (st.agg k).1)
             total := (st.agg k).1
             covered := (st.agg k).2 }
    else none)

/-- results after results.sort(key coverage): ascending by percentage. -/
def results (st : Stats) : List Row := sortBy rowLe (resultRows st)

/-- Last path segment of a package key, pkg.split("/")[-1]. -/
def shortName (pkg : String) : String :=
  String.mk ((pkg.data.reverse.takeWhile (fun c => c ≠ '/')).reverse)

/-- Sum of the totals over all dict entries. -/
def overallTotal (st : Stats) : Int :=
  (st.keys.map (fun k => (st.agg k).1)).sum

/-- Sum of the covered counts over all dict entries. -/
def overallCovered (st : Stats) : Int :=
  (st.keys.map (fun k => (st.agg k).2)).sum

/-- The percentage printed on the overall line: covered / total * 100 when
the summed total is positive, 0 otherwise. -/
def overallCoverage (st : Stats) : ℚ :=
  if 0 < overallTotal st then
    ((overallCovered st : ℚ) / (overallTotal st : ℚ)) * 100
  else 0

/-- The rows of the "needing improvement" table: the report rows with
percentage below 75, each rendered as short name, percentage, and the
deficit total - covered. -/
def improvementRows (st : Stats) : List (String × ℚ × Int) :=
  (results st).filterMap (fun r =>
    if r.coverage < 75 then some (shortName r.pkg, r.coverage, r.total - r.covered)
    else none)

/-- Agreement of two run results on the final aggregates: both fatal, or
both successful with the same key set and the same totals everywhere. -/
def sameAggregates : Except Unit Stats → Except Unit Stats → Prop
  | .ok s₁, .ok s₂ => (∀ k, k ∈ s₁.keys ↔ k ∈ s₂.keys) ∧ s₁.agg = s₂.agg
  | .error _, .error _ => True
  | _, _ => False

/-- The three-line input of the specification example. -/
def exampleLines : List String :=
  ["pkg/a/file.go:1.1,2.2 5 1",
   "pkg/a/file2.go:3.1,4.2 10 0",
   "pkg/b/file.go:1.1,2.2 4 4"]

/-- The state the specification example should reach. -/
def exampleStats : Stats :=
  applyRecord (applyRecord (applyRecord emptyStats ("pkg/a") 5 1) ("pkg/a") 10 0)
    "pkg/b" 4 4

lemma foldl_stepE_error (pre : String) (e : Unit) (lines : List String) :
    lines.foldl (stepE pre) (Except.error e) = Except.error e := by
  induction lines with
  | nil => rfl
  | cons l ls ih => simpa [stepE] using ih

lemma applyRecord_agg_self (st : Stats) (pkg : String) (s c : Int) :
    (applyRecord st pkg s c).agg pkg =
      ((st.agg pkg).1 + s, (st.agg pkg).2 + (if 0 < c then s else 0)) := by
  simp [applyRecord]

lemma statusOf_eq_good_iff (q : ℚ) : statusOf q = "Good" ↔ 75 ≤ q := by
  unfold statusOf
  split <;> rename_i h
  · simpa using h
  · simpa using h

/-- C1: folding a parsed record increments the aggregate of its package by
the statement count on total always, and on covered exactly when the
execution count is positive; an execution count of 0 touches only total. -/
theorem fold_increments (pre line : String) (st : Stats) (pkg : String) (s c : Int)
    (h : classify pre line = .record pkg s c) :
    stepLine pre st line = .ok (applyRecord st pkg s c) ∧
    ((applyRecord st pkg s c).agg pkg).1 = (st.agg pkg).1 + s ∧
    (0 < c → ((applyRecord st pkg s c).agg pkg).2 = (st.agg pkg).2 + s) ∧
    (c = 0 → ((applyRecord st pkg s c).agg pkg).2 = (st.agg pkg).2) := by
  refine ⟨by rw [stepLine, h], ?_, ?_, ?_⟩
  · rw [applyRecord_agg_self]
  · intro hc
    rw [applyRecord_agg_self, if_pos hc]
  · intro hc
    subst hc
    rw [applyRecord_agg_self]
    simp

theorem fold_increments_witness :
    stepLine ("pkg/") emptyStats ("pkg/a/file2.go:3.1,4.2 10 0") =
      .ok (applyRecord emptyStats ("pkg/a") 10 0) ∧
    ((applyRecord emptyStats ("pkg/a") 10 0).agg ("pkg/a")).1 =
      ((emptyStats.agg ("pkg/a")).1 + 10) ∧
    (0 < (0 : Int) →
      ((applyRecord emptyStats ("pkg/a") 10 0).agg ("pkg/a")).2 =
        (emptyStats.agg ("pkg/a")).2 + 10) ∧
    ((0 : Int) = 0 →
      ((applyRecord emptyStats ("pkg/a") 10 0).agg ("pkg/a")).2 =
        (emptyStats.agg ("pkg/a")).2) :=
  fold_increments ("pkg/") ("pkg/a/file2.go:3.1,4.2 10 0") emptyStats ("pkg/a") 10 0
    (by decide)

/-- C6: a mode line, and a malformed line with fewer than 3 tokens, are
skipped: the state is returned unchanged and the run continues. -/
theorem malformed_skipped (pre : String) (st : Stats) (line : String)
    (h : leadsWith ("mode:").data line.data = true ∨ (pyFields line).length < 3) :
    stepLine pre st line = .ok st := by
  have hc : classify pre line = .skip := by
    rw [classify]
    rcases h with h | h
    · rw [if_pos h]
    · by_cases hm : leadsWith ("mode:").data line.data = true
      · rw [if_pos hm]
      · rw [if_neg hm, if_pos h]
  rw [stepLine, hc]

theorem malformed_skipped_witness :
    stepLine repoPkgRoot emptyStats ("github.com/junbin-yang/go-kitbox/pkg/a/f.go:1.1,2.2 5") =
      .ok emptyStats :=
  malformed_skipped repoPkgRoot emptyStats
    ("github.com/junbin-yang/go-kitbox/pkg/a/f.go:1.1,2.2 5") (Or.inr (by decide))

/-- C7 counterexample: the line "a/f.go:1.1,2.2 5 x" has a path that does
not match the package pattern, yet processing it raises instead of leaving
the state unchanged, because int(parts[2]) is evaluated first. -/
theorem nonmatching_line_error_cx :
    pkgMatch repoPkgRoot (filePathOf ("a/f.go:1.1,2.2 5 x")) = none ∧
    classify repoPkgRoot ("a/f.go:1.1,2.2 5 x") = .fatal ∧
    stepLine repoPkgRoot emptyStats ("a/f.go:1.1,2.2 5 x") = .error () := by
  refine ⟨by decide, by decide, ?_⟩
  rw [stepLine, show classify repoPkgRoot ("a/f.go:1.1,2.2 5 x") = .fatal from by decide]

/-- C7 amended: a line whose path does not match the package pattern
leaves the state unchanged without error, provided that, when the line has
at least 3 tokens, its third token parses as an integer. -/
theorem nonmatching_line_skipped (pre : String) (st : Stats) (line : String)
    (hmatch : pkgMatch pre (filePathOf line) = none)
    (hint : 3 ≤ (pyFields line).length → (pyInt ((pyFields line).getD 2 [])).isSome) :
    stepLine pre st line = .ok st := by
  have hc : classify pre line = .skip := by
    rw [classify]
    by_cases hm : leadsWith ("mode:").data line.data = true
    · rw [if_pos hm]
    · rw [if_neg hm]
      by_cases hl : (pyFields line).length < 3
      · rw [if_pos hl]
      · rw [if_neg hl]
        rcases ho : pyInt ((pyFields line).getD 2 []) with _ | c
        · exact absurd (hint (by omega)) (by rw [ho]; simp)
        · simp only [hmatch]
  rw [stepLine, hc]

theorem nonmatching_line_skipped_witness :
    stepLine repoPkgRoot emptyStats ("a/f.go:1.1,2.2 5 1") = .ok emptyStats :=
  nonmatching_line_skipped repoPkgRoot emptyStats ("a/f.go:1.1,2.2 5 1")
    (by decide) (fun _ => by decide)

/-- C10: a non-mode line with at least 3 tokens whose third token is not a
valid integer aborts the whole run (nothing after it is processed),
whatever its path; the witness below instantiates it with a path that does
not match the package pattern. -/
theorem bad_exec_count_fatal (pre : String) (st : Stats) (line : String)
    (rest : List String)
    (hmode : leadsWith ("mode:").data line.data = false)
    (hlen : 3 ≤ (pyFields line).length)
    (hbad : pyInt ((pyFields line).getD 2 []) = none) :
    (line :: rest).foldl (stepE pre) (Except.ok st) = Except.error () := by
  have hc : classify pre line = .fatal := by
    rw [classify, if_neg (by simp [hmode]), if_neg (by omega)]
    simp only [hbad]
  have h1 : stepE pre (Except.ok st) line = Except.error () := by
    show stepLine pre st line = Except.error ()
    rw [stepLine, hc]
  rw [List.foldl_cons, h1, foldl_stepE_error]

theorem bad_exec_count_fatal_witness :
    (("a/f.go:1.1,2.2 5 x") ::
        ["github.com/junbin-yang/go-kitbox/pkg/b/f.go:1.1,2.2 4 4"]).foldl
      (stepE repoPkgRoot) (Except.ok emptyStats) = Except.error () :=
  bad_exec_count_fatal repoPkgRoot emptyStats ("a/f.go:1.1,2.2 5 x")
    ["github.com/junbin-yang/go-kitbox/pkg/b/f.go:1.1,2.2 4 4"]
    (by decide) (by decide) (by decide)

/-- C4: the overall line shows sum(covered) / sum(total) * 100 whenever
the summed total is positive, and 0 when the summed total is 0. -/
theorem overall_percentage (st : Stats) :
    (0 < overallTotal st →
      overallCoverage st =
        ((overallCovered st : ℚ) / (overallTotal st : ℚ)) * 100) ∧
    (overallTotal st = 0 → overallCoverage st = 0) := by
  constructor
  · intro h
    rw [overallCoverage, if_pos h]
  · intro h
    rw [overallCoverage, if_neg (by omega)]

theorem overall_percentage_witness :
    overallCoverage (applyRecord emptyStats ("pkg/a") 4 4) =
      ((overallCovered (applyRecord emptyStats ("pkg/a") 4 4) : ℚ) /
        (overallTotal (applyRecord emptyStats ("pkg/a") 4 4) : ℚ)) * 100 :=
  (overall_percentage (applyRecord emptyStats ("pkg/a") 4 4)).1 (by decide)

lemma filterMap_ite_eq_filter_map {α β : Type} (p : α → Prop) [DecidablePred p]
    (g : α → β) (l : List α) :
    l.filterMap (fun x => if p x then some (g x) else none) =
      (l.filter (fun x => decide (p x))).map g := by
  induction l with
  | nil => rfl
  | cons x xs ih =>
    by_cases h : p x
    · simp [List.filterMap_cons, List.filter_cons, h, ih]
    · simp [List.filterMap_cons, List.filter_cons, h, ih]

/-- C8: the "needing improvement" table consists of exactly the report
rows with percentage below 75, each carrying the raw deficit
total - covered. -/
theorem improvement_table (st : Stats) :
    improvementRows st =
      ((results st).filter (fun r => decide (r.coverage < 75))).map
        (fun r => (shortName r.pkg, r.coverage, r.total - r.covered)) := by
  rw [improvementRows]
  exact filterMap_ite_eq_filter_map (fun r => r.coverage < 75)
    (fun r => (shortName r.pkg, r.coverage, r.total - r.covered)) (results st)

lemma classify_record_statements (pre line : String) (pkg : String) (s c : Int)
    (h : classify pre line = .record pkg s c) :
    pyInt ((pyFields line).getD 1 []) = some s := by
  rw [classify] at h
  by_cases hm : leadsWith ("mode:").data line.data = true
  · rw [if_pos hm] at h
    exact absurd h (by simp)
  · rw [if_neg hm] at h
    by_cases hl : (pyFields line).length < 3
    · rw [if_pos hl] at h
      exact absurd h (by simp)
    · rw [if_neg hl] at h
      rcases ho : pyInt ((pyFields line).getD 2 []) with _ | cov <;> rw [ho] at h
      · exact absurd h (by simp)
      · rcases hp : pkgMatch pre (filePathOf line) with _ | pkg₀ <;> rw [hp] at h
        · exact absurd h (by simp)
        · rcases hs : pyInt ((pyFields line).getD 1 []) with _ | s₀ <;> rw [hs] at h
          · exact absurd h (by simp)
          · rw [LineAction.record.injEq] at h
            rw [h.2.1]

lemma covered_le_total_step (st : Stats) (pkg : String) (s c : Int)
    (hs : 0 ≤ s) (hinv : ∀ k, (st.agg k).2 ≤ (st.agg k).1) :
    ∀ k, ((applyRecord st pkg s c).agg k).2 ≤ ((applyRecord st pkg s c).agg k).1 := by
  intro k
  have h := hinv k
  simp only [applyRecord]
  split_ifs with h1 h2 <;> simp <;> omega

lemma covered_le_total_aux (pre : String) (lines : List String) :
    ∀ st₀ : Stats, (∀ k, (st₀.agg k).2 ≤ (st₀.agg k).1) →
    (∀ l ∈ lines, ∀ n : Int, pyInt ((pyFields l).getD 1 []) = some n → 0 ≤ n) →
    ∀ st : Stats, lines.foldl (stepE pre) (Except.ok st₀) = Except.ok st →
    ∀ k, (st.agg k).2 ≤ (st.agg k).1 := by
  induction lines with
  | nil =>
    intro st₀ h0 _ st hst
    rw [List.foldl_nil] at hst
    cases hst
    exact h0
  | cons l ls ih =>
    intro st₀ h0 hwf st hst
    rw [List.foldl_cons] at hst
    cases hcl : classify pre l with
    | skip =>
      have he : stepE pre (Except.ok st₀) l = Except.ok st₀ := by
        simp [stepE, stepLine, hcl]
      rw [he] at hst
      exact ih st₀ h0 (fun l' hl' => hwf l' (List.mem_cons_of_mem _ hl')) st hst
    | fatal =>
      have he : stepE pre (Except.ok st₀) l = Except.error () := by
        simp [stepE, stepLine, hcl]
      rw [he, foldl_stepE_error] at hst
      exact absurd hst (by simp)
    | record pkg s c =>
      have hs : 0 ≤ s :=
        hwf l (List.mem_cons_self l ls) s (classify_record_statements pre l pkg s c hcl)
      have he : stepE pre (Except.ok st₀) l = Except.ok (applyRecord st₀ pkg s c) := by
        simp [stepE, stepLine, hcl]
      rw [he] at hst
      exact ih (applyRecord st₀ pkg s c) (covered_le_total_step st₀ pkg s c hs h0)
        (fun l' hl' => hwf l' (List.mem_cons_of_mem _ hl')) st hst

/-- C2: on any run that completes, provided every statement-count token
that parses as an integer is non-negative (as every well-formed coverage
file guarantees), every aggregate has covered at most total, whatever the
order of the lines. -/
theorem covered_le_total (pre : String) (lines : List String) (st : Stats)
    (hwf : ∀ l ∈ lines, ∀ n : Int, pyInt ((pyFields l).getD 1 []) = some n → 0 ≤ n)
    (hrun : processLines pre lines = Except.ok st) :
    ∀ k, (st.agg k).2 ≤ (st.agg k).1 :=
  covered_le_total_aux pre lines emptyStats (fun _ => le_refl 0) hwf st hrun

theorem covered_le_total_witness :
    ((applyRecord emptyStats ("github.com/junbin-yang/go-kitbox/pkg/a") 5 0).agg
        "github.com/junbin-yang/go-kitbox/pkg/a").2 ≤
      ((applyRecord emptyStats ("github.com/junbin-yang/go-kitbox/pkg/a") 5 0).agg
        "github.com/junbin-yang/go-kitbox/pkg/a").1 :=
  covered_le_total repoPkgRoot
    ["github.com/junbin-yang/go-kitbox/pkg/a/f.go:1.1,2.2 5 0"]
    (applyRecord emptyStats ("github.com/junbin-yang/go-kitbox/pkg/a") 5 0)
    (by
      intro l hl n hn
      simp only [List.mem_singleton] at hl
      subst hl
      rw [show pyInt ((pyFields
          ("github.com/junbin-yang/go-kitbox/pkg/a/f.go:1.1,2.2 5 0")).getD 1 []) =
        some 5 from by decide] at hn
      have h5 := Option.some.inj hn
      omega)
    (by rfl) ("github.com/junbin-yang/go-kitbox/pkg/a")

lemma mem_insortBy {α : Type} (le : α → α → Prop) [DecidableRel le] (x y : α)
    (l : List α) : x ∈ insortBy le y l ↔ x = y ∨ x ∈ l := by
  induction l with
  | nil => simp [insortBy]
  | cons z zs ih =>
    rw [insortBy]
    split
    · simp only [List.mem_cons, ih]
      tauto
    · simp only [List.mem_cons]

lemma mem_sortBy_aux {α : Type} (le : α → α → Prop) [DecidableRel le]
    (l : List α) :
    ∀ acc x, (x ∈ l.foldl (fun a y => insortBy le y a) acc ↔ x ∈ acc ∨ x ∈ l) := by
  induction l with
  | nil => simp
  | cons z zs ih =>
    intro acc x
    rw [List.foldl_cons, ih, mem_insortBy]
    simp only [List.mem_cons]
    tauto

lemma mem_sortBy {α : Type} (le : α → α → Prop) [DecidableRel le] (x : α)
    (l : List α) : x ∈ sortBy le l ↔ x ∈ l := by
  rw [sortBy, mem_sortBy_aux]
  simp

lemma results_status (st : Stats) (r : Row) (hr : r ∈ results st) :
    r.status = statusOf r.coverage := by
  rw [results, mem_sortBy, resultRows] at hr
  obtain ⟨k, _, hf⟩ := List.mem_filterMap.mp hr
  by_cases h0 : 0 < (st.agg k).1
  · rw [if_pos h0, Option.some.injEq] at hf
    rw [← hf]
  · rw [if_neg h0] at hf
    exact absurd hf (by simp)

/-- C5: a report row is labelled Good exactly when its percentage is at
least 75, the boundary value 75 itself being labelled Good. -/
theorem status_good_iff (st : Stats) (r : Row) (hr : r ∈ results st) :
    (r.status = "Good" ↔ 75 ≤ r.coverage) ∧ statusOf 75 = "Good" := by
  refine ⟨?_, by rw [statusOf, if_pos le_rfl]⟩
  rw [results_status st r hr]
  exact statusOf_eq_good_iff r.coverage

theorem status_good_iff_witness :
    ((Row.mk ("p") (pctOf 4 4) (statusOf (pctOf 4 4)) 4 4).status = "Good" ↔
      75 ≤ (Row.mk ("p") (pctOf 4 4) (statusOf (pctOf 4 4)) 4 4).coverage) ∧
    statusOf 75 = "Good" :=
  status_good_iff (applyRecord emptyStats ("p") 4 4)
    (Row.mk ("p") (pctOf 4 4) (statusOf (pctOf 4 4)) 4 4)
    (by
      rw [results, mem_sortBy, resultRows,
        show sortedKeys (applyRecord emptyStats ("p") 4 4) = ["p"] from by decide]
      simp [show (applyRecord emptyStats ("p") 4 4).agg ("p") = (4, 4) from by decide])

lemma sameAggregates_refl (a : Except Unit Stats) : sameAggregates a a := by
  cases a with
  | error e => trivial
  | ok s => exact ⟨fun _ => Iff.rfl, rfl⟩

lemma sameAggregates_trans {a b c : Except Unit Stats} (hab : sameAggregates a b)
    (hbc : sameAggregates b c) : sameAggregates a c :=
  match a, b, c, hab, hbc with
  | .error _, .error _, .error _, _, _ => trivial
  | .ok _, .ok _, .ok _, ⟨hk₁, ha₁⟩, ⟨hk₂, ha₂⟩ =>
    ⟨fun k => (hk₁ k).trans (hk₂ k), ha₁.trans ha₂⟩
  | .error _, .ok _, _, h, _ => h.elim
  | .ok _, .error _, _, h, _ => h.elim
  | .error _, .error _, .ok _, _, h => h.elim
  | .ok _, .ok _, .error _, _, h => h.elim

lemma mem_dictInsertKey (keys : List String) (pkg k : String) :
    k ∈ dictInsertKey keys pkg ↔ k ∈ keys ∨ k = pkg := by
  rw [dictInsertKey]
  split <;> rename_i h
  · constructor
    · exact Or.inl
    · rintro (hk | rfl)
      · exact hk
      · exact h
  · simp [List.mem_append]

lemma stepE_congr (pre line : String) {a b : Except Unit Stats}
    (h : sameAggregates a b) :
    sameAggregates (stepE pre a line) (stepE pre b line) := by
  match a, b, h with
  | .error _, .error _, _ => trivial
  | .error _, .ok _, h => exact h.elim
  | .ok _, .error _, h => exact h.elim
  | .ok s₁, .ok s₂, ⟨hk, ha⟩ =>
    show sameAggregates (stepLine pre s₁ line) (stepLine pre s₂ line)
    cases hcl : classify pre line with
    | skip => simp only [stepLine, hcl]; exact ⟨hk, ha⟩
    | fatal => simp only [stepLine, hcl]; trivial
    | record pkg s c =>
      simp only [stepLine, hcl]
      refine ⟨?_, ?_⟩
      · intro k
        simp only [applyRecord, mem_dictInsertKey, hk k]
      · funext k
        simp only [applyRecord, ha]

lemma stepE_swap (pre x y : String) (a : Except Unit Stats) :
    sameAggregates (stepE pre (stepE pre a x) y) (stepE pre (stepE pre a y) x) := by
  match a with
  | .error _ => trivial
  | .ok st =>
    cases hx : classify pre x <;> cases hy : classify pre y <;>
      simp only [stepE, stepLine, hx, hy] <;>
      try exact sameAggregates_refl _
    rename_i p₁ s₁ c₁ p₂ s₂ c₂
    refine ⟨?_, ?_⟩
    · intro k
      simp only [applyRecord, mem_dictInsertKey]
      tauto
    · funext k
      simp only [applyRecord]
      by_cases h1 : k = p₁ <;> by_cases h2 : k = p₂ <;>
        simp [h1, h2, Prod.ext_iff] <;> split_ifs <;> omega

lemma foldl_stepE_congr (pre : String) (l : List String) {a b : Except Unit Stats}
    (h : sameAggregates a b) :
    sameAggregates (l.foldl (stepE pre) a) (l.foldl (stepE pre) b) := by
  induction l generalizing a b with
  | nil => exact h
  | cons x xs ih => exact ih (stepE_congr pre x h)

/-- C3: processing any permutation of the lines yields the same final
aggregates: the same package keys, and the same total and covered for
every key (or both runs abort). -/
theorem aggregates_perm_invariant (pre : String) (l₁ l₂ : List String)
    (h : l₁.Perm l₂) :
    sameAggregates (processLines pre l₁) (processLines pre l₂) := by
  rw [processLines, processLines]
  have main : ∀ a : Except Unit Stats,
      sameAggregates (l₁.foldl (stepE pre) a) (l₂.foldl (stepE pre) a) := by
    induction h with
    | nil => intro a; exact sameAggregates_refl _
    | cons x h ih =>
      intro a
      rw [List.foldl_cons, List.foldl_cons]
      exact ih (stepE pre a x)
    | swap x y l =>
      intro a
      rw [List.foldl_cons, List.foldl_cons, List.foldl_cons, List.foldl_cons]
      exact foldl_stepE_congr pre l (stepE_swap pre y x a)
    | trans h₁ h₂ ih₁ ih₂ =>
      intro a
      exact sameAggregates_trans (ih₁ a) (ih₂ a)
  exact main (Except.ok emptyStats)

theorem aggregates_perm_invariant_witness :
    sameAggregates
      (processLines repoPkgRoot
        ["github.com/junbin-yang/go-kitbox/pkg/a/f.go:1.1,2.2 5 1",
         "github.com/junbin-yang/go-kitbox/pkg/b/f.go:1.1,2.2 4 0"])
      (processLines repoPkgRoot
        ["github.com/junbin-yang/go-kitbox/pkg/b/f.go:1.1,2.2 4 0",
         "github.com/junbin-yang/go-kitbox/pkg/a/f.go:1.1,2.2 5 1"]) :=
  aggregates_perm_invariant repoPkgRoot _ _ (List.Perm.swap _ _ _)

/-- C9: on the three example lines with package root "pkg/", the run
succeeds; package pkg/a aggregates to total 15, covered 5 (percentage
100/3, shown as 33.3, labelled Needs Work), package pkg/b to total 4,
covered 4 (percentage 100, labelled Good), and overall 19 total and 9
covered give 900/19, shown as 47.4. -/
theorem example_report :
    processLines ("pkg/") exampleLines = Except.ok exampleStats ∧
    exampleStats.agg ("pkg/a") = (15, 5) ∧
    exampleStats.agg ("pkg/b") = (4, 4) ∧
    results exampleStats =
      [Row.mk ("pkg/a") (pctOf 5 15) (statusOf (pctOf 5 15)) 15 5,
       Row.mk ("pkg/b") (pctOf 4 4) (statusOf (pctOf 4 4)) 4 4] ∧
    pctOf 5 15 = 100 / 3 ∧ statusOf (pctOf 5 15) = "Needs Work" ∧
    pctOf 4 4 = 100 ∧ statusOf (pctOf 4 4) = "Good" ∧
    overallTotal exampleStats = 19 ∧ overallCovered exampleStats = 9 ∧
    overallCoverage exampleStats = 900 / 19 ∧
    round ((10 : ℚ) * pctOf 5 15) = 333 ∧
    round ((10 : ℚ) * pctOf 4 4) = 1000 ∧
    round ((10 : ℚ) * overallCoverage exampleStats) = 474 := by
  refine ⟨by rfl, by decide, by decide, ?_,
    by norm_num [pctOf], by norm_num [statusOf, pctOf],
    by norm_num [pctOf], by norm_num [statusOf, pctOf],
    by decide, by decide, ?_, ?_, ?_, ?_⟩
  · rw [results, resultRows,
      show sortedKeys exampleStats = ["pkg/a", "pkg/b"] from by decide]
    simp only [List.filterMap_cons, List.filterMap_nil,
      show exampleStats.agg ("pkg/a") = (15, 5) from by decide,
      show exampleStats.agg ("pkg/b") = (4, 4) from by decide]
    norm_num [sortBy, insortBy, rowLe,
      show pctOf 5 15 ≤ pctOf 4 4 from by norm_num [pctOf]]
  · rw [overallCoverage, show overallTotal exampleStats = 19 from by decide,
      show overallCovered exampleStats = 9 from by decide]
    norm_num
  · norm_num [pctOf, round_eq]
  · norm_num [pctOf, round_eq]
  · rw [overallCoverage, show overallTotal exampleStats = 19 from by decide,
      show overallCovered exampleStats = 9 from by decide]
    norm_num [round_eq]
